import Mathlib

/-!
Verification of the Quant-Backtest-Engine specification.

Shallow embedding of the repository's data pipeline, backtest engine,
signal generators, Monte Carlo simulator, and test fixtures, together
with theorems settling the frozen claims about the specification.

Numeric values are modelled as rationals (`ℚ`); transcendental functions
of the numeric libraries (`exp`, `log`, the normal sampler) are abstracted
as explicit function parameters, so every definition stays executable.
A pandas Series or one column of a DataFrame is a `List (Option ℚ)` over
a shared ascending date index, `none` marking a missing value (NaN).
A raised Python exception is an `Except.error`.
-/

namespace QuantBacktest

/-! ## config.py — central configuration constants -/

def INITIAL_CAPITAL : ℚ := 1000000

def TRANSACTION_COST_BPS : ℚ := 10

def SLIPPAGE_BPS : ℚ := 5

def MAX_POSITION_WEIGHT : ℚ := 2/5

def MAX_LEVERAGE : ℚ := 3/2

def KELLY_FRACTION : ℚ := 1/2

def MC_SEED : ℕ := 42

def ASSETS : List String :=
  ["SPY", "QQQ", "IWM", "EFA", "TLT", "IEF", "GLD", "SLV", "USO",
   "BTC-USD", "DBA", "VNQ"]

/-! ## src/data/fetcher.py — data ingestion

`fetch_single` downloads one ticker's close prices; the downloaded
close column is modelled as a `List (Option ℚ)` (one entry per
downloaded row, `none` for a missing close).  `fetch_prices` loops over
the tickers, confines each per-ticker failure, concatenates the
successful series column-wise over the shared date index, forward-fills
gaps up to 5 rows and drops the rows that still contain a missing
value. -/

/-- A fetched price series: the pandas Series returned by
`fetch_single` — close values (after `dropna`), `name` set to the
ticker, index renamed to `"Date"`. -/
structure FetchedSeries where
  name : String
  indexName : String
  values : List (Option ℚ)
  deriving Repr, DecidableEq

/-- `Series.dropna`: keep only the present values (still wrapped in
`some`, so that "no missing values" remains a provable property rather
than one baked into the type). -/
def dropna (xs : List (Option ℚ)) : List (Option ℚ) :=
  (xs.filterMap id).map some

/-- `fetch_single` on the non-cache path (src/data/fetcher.py lines
64–94): download the data, raise `ValueError` when the download is
empty, otherwise take the close column, drop missing values, name the
series by the ticker and name its index `"Date"`. -/
def fetch_single (ticker : String) (downloaded : List (Option ℚ)) :
    Except String FetchedSeries :=
  if downloaded.isEmpty then
    .error ("ValueError: No data returned for ticker " ++ ticker)
  else
    .ok { name := ticker, indexName := "Date", values := dropna downloaded }

/-- The price table returned by `fetch_prices`: one named column per
ticker, rows indexed by the shared date index.  `rows` keeps `Option`
entries so that freedom from missing values is a theorem, not a typing
artifact. -/
structure PriceTable where
  columns : List String
  rows : List (List (Option ℚ))
  deriving Repr, DecidableEq

/-- `Series.ffill(limit := 5)` on one column, carrying the last seen
value and the length of the current gap: a missing entry is filled from
the last seen value only while the gap is at most `limit` long. -/
def ffillGo (limit : ℕ) (last : Option ℚ) (gap : ℕ) :
    List (Option ℚ) → List (Option ℚ)
  | [] => []
  | some v :: rest => some v :: ffillGo limit (some v) 0 rest
  | none :: rest =>
      (if gap + 1 ≤ limit then last else none) :: ffillGo limit last (gap + 1) rest

/-- `DataFrame.ffill(limit)` column-wise entry point. -/
def ffill (limit : ℕ) (col : List (Option ℚ)) : List (Option ℚ) :=
  ffillGo limit none 0 col

/-- `DataFrame.dropna()`: keep exactly the rows in which every column
has a present value. -/
def dropnaRows (rows : List (List (Option ℚ))) : List (List (Option ℚ)) :=
  rows.filter (fun r => r.all Option.isSome)

/-- The cleaned table body built from the successfully fetched
columns: forward-fill each column's gaps up to 5 rows, join the columns
into rows, and drop the rows still holding a missing value. -/
def cleanedRows (fetched : List (String × List (Option ℚ))) :
    List (List (Option ℚ)) :=
  dropnaRows ((fetched.map (fun p => ffill 5 p.2)).transpose)

/-- `fetch_prices` (src/data/fetcher.py lines 96–161): fetch each
ticker, confining per-ticker failures (`outcome t = none` models
`fetch_single` raising for ticker `t`, `outcome t = some col` models
success with column `col` aligned to the shared date index); raise
`RuntimeError` when no ticker succeeded; otherwise concatenate the
successful columns, forward-fill gaps up to 5 rows, drop rows that
still hold a missing value, and log the date range — the logging call
evaluates `prices.index[0]`, which raises `IndexError` when the cleaned
table has no rows left. -/
def fetch_prices (tickers : List String)
    (outcome : String → Option (List (Option ℚ))) :
    Except String PriceTable :=
  let fetched := tickers.filterMap (fun t => (outcome t).map (fun col => (t, col)))
  if fetched.isEmpty then
    .error "RuntimeError: No data fetched for any ticker"
  else
    let rows := cleanedRows fetched
    if rows.isEmpty then
      .error "IndexError: index 0 is out of bounds for axis 0 with size 0"
    else
      .ok { columns := fetched.map Prod.fst, rows := rows }

/-! ## src/optimization — signal generators

`src/optimization/kelly.py` and the equal-weight module hold no code in
this repository (only module docstrings); their behaviour is modelled
from the specification, §4.2. -/

/-- A SignalGenerator: maps the price history available strictly before
the rebalance date to a target weight vector. -/
def Sig : Type := List (List ℚ) → List ℚ

/-- Modelled from the spec: `EqualWeight`: "static 1/N, no estimation" —
one weight `1/N` per asset, `N` the number of columns of the history. -/
def equal_weight_signal : Sig :=
  fun hist =>
    match hist with
    | [] => []
    | row :: _ => row.map (fun _ => (1 : ℚ) / row.length)

/-- Gross leverage `Σ|w_i|` of a weight vector. -/
def grossLev (ws : List ℚ) : ℚ := (ws.map (fun w => |w|)).sum

/-- `max_i |w_i|` of a weight vector (0 when empty). -/
def maxAbs (ws : List ℚ) : ℚ := (ws.map (fun w => |w|)).foldr max 0

/-- Clip one weight into `[-MAX_POSITION_WEIGHT, MAX_POSITION_WEIGHT]`. -/
def clipPos (w : ℚ) : ℚ :=
  max (-MAX_POSITION_WEIGHT) (min MAX_POSITION_WEIGHT w)

/-- Modelled from the spec, §4.2: the constraint step of the Kelly
signal — "clip/rescale to satisfy MAX_POSITION_WEIGHT and MAX_LEVERAGE
by proportional shrinkage": positions breaching the single-position cap
are clipped to it, and when the gross leverage still exceeds
MAX_LEVERAGE the whole vector is shrunk proportionally onto the cap. -/
def applyConstraints (ws : List ℚ) : List ℚ :=
  let c := ws.map clipPos
  let g := grossLev c
  if g ≤ MAX_LEVERAGE then c else c.map (fun w => w * (MAX_LEVERAGE / g))

/-- Modelled from the spec, §4.2 (`src/optimization/kelly.py` holds no
code): the Kelly signal scales the raw Kelly weights
`w* = Σ⁻¹(μ − r_f·1)` — abstracted here as the estimator parameter
`raw`, since the numeric linear solve is external — by `fraction`
and then applies the constraint step. -/
def make_kelly_signal (fraction : ℚ) (raw : Sig) : Sig :=
  fun hist => applyConstraints ((raw hist).map (fun w => fraction * w))

/-! ## src/engine/backtest.py — the daily backtest loop

`src/engine/backtest.py` holds no code in this repository (only the
module docstring); the engine is modelled from the specification, §4.3:
a daily cycle MarkToMarket → (conditionally) Rebalance → RecordMetrics,
with the sole signal input at a rebalance on day `t` being the price
history strictly before `t`, costs of
`Σ|Δw_i| · equity · bps / 10000` per bps kind on the traded notional,
and `equity_curve[0] = INITIAL_CAPITAL` exactly. -/

/-- PortfolioState: cash plus per-asset unit holdings. -/
structure PState where
  cash : ℚ
  holdings : List ℚ
  deriving Repr, DecidableEq

/-- BacktestResult: equity curve, daily returns, per-day weight
positions and per-day turnover. -/
structure BacktestResult where
  equity_curve : List ℚ
  daily_returns : List ℚ
  positions : List (List ℚ)
  turnover : List ℚ
  deriving Repr, DecidableEq

/-- The price history the engine passes to the SignalGenerator at a
rebalance on day `t`: the rows strictly before `t` ("data up to
yesterday only").  This is the engine's single point of access to the
signal. -/
def signalAt (sig : Sig) (prices : List (List ℚ)) (t : ℕ) : List ℚ :=
  sig (prices.take t)

/-- Equity of a state marked to the close prices `row`. -/
def markToMarket (st : PState) (row : List ℚ) : ℚ :=
  st.cash + (List.zipWith (fun u p => u * p) st.holdings row).sum

/-- Current portfolio weights of a state at close prices `row` and
equity `eq` (0 on zero equity, matching a 0-division in ℚ). -/
def currentWeights (st : PState) (row : List ℚ) (eq : ℚ) : List ℚ :=
  List.zipWith (fun u p => u * p / eq) st.holdings row

/-- One rebalance: trade from the current weights to the target
weights `w`, paying `TRANSACTION_COST_BPS + SLIPPAGE_BPS` on the traded
notional, and restate holdings at the target weights on the
post-cost equity.  Returns the new state, post-cost equity and
turnover `Σ|Δw_i|`. -/
def rebalanceStep (st : PState) (row : List ℚ) (eq : ℚ) (w : List ℚ) :
    PState × ℚ × ℚ :=
  let cur := currentWeights st row eq
  let deltas := List.zipWith (fun tw cw => tw - cw) w cur
  let turnover := (deltas.map (fun d => |d|)).sum
  let cost := turnover * eq * (TRANSACTION_COST_BPS + SLIPPAGE_BPS) / 10000
  let eq' := eq - cost
  let holdings := List.zipWith (fun wi p => wi * eq' / p) w row
  let cash := (1 - w.sum) * eq'
  (⟨cash, holdings⟩, eq', turnover)

/-- One day of the cycle: mark to market, then rebalance to the
signal's weights when today is a rebalance date.  Returns the post-day
state, equity and turnover. -/
def dayStep (st : PState) (row : List ℚ) (doReb : Bool) (w : List ℚ) :
    PState × ℚ × ℚ :=
  let eq := markToMarket st row
  if doReb then rebalanceStep st row eq w else (st, eq, 0)

/-- The daily loop from day `t` on: mark to market, rebalance when
`rebal t`, record equity, daily return, weights and turnover. -/
def runDays (sig : Sig) (prices : List (List ℚ)) (rebal : ℕ → Bool) :
    ℕ → List (List ℚ) → PState → ℚ → BacktestResult
  | _, [], _, _ => ⟨[], [], [], []⟩
  | t, row :: rest, st, prevEq =>
      let s := dayStep st row (rebal t) (signalAt sig prices t)
      let r := runDays sig prices rebal (t + 1) rest s.1 s.2.1
      ⟨s.2.1 :: r.equity_curve,
       (s.2.1 / prevEq - 1) :: r.daily_returns,
       currentWeights s.1 row s.2.1 :: r.positions,
       s.2.2 :: r.turnover⟩

/-- Modelled from the spec, §4.3 (`src/engine/backtest.py` holds no
code): the backtest starts fully in cash at INITIAL_CAPITAL — so the
first recorded equity is exactly INITIAL_CAPITAL — and then runs the
daily cycle over the remaining rows. -/
def run_backtest (prices : List (List ℚ)) (sig : Sig) (rebal : ℕ → Bool) :
    BacktestResult :=
  match prices with
  | [] => ⟨[INITIAL_CAPITAL], [], [], []⟩
  | row :: rest =>
      let st : PState := ⟨INITIAL_CAPITAL, row.map (fun _ => 0)⟩
      let r := runDays sig prices rebal 1 rest st INITIAL_CAPITAL
      ⟨INITIAL_CAPITAL :: r.equity_curve,
       0 :: r.daily_returns,
       currentWeights st row INITIAL_CAPITAL :: r.positions,
       0 :: r.turnover⟩

/-! ## src/monte_carlo/simulation.py — forward simulation

`src/monte_carlo/simulation.py` holds no code in this repository (only
the module docstring); the simulator is modelled from the
specification, §4.5: calibrate mean and variance from the realized
daily-return series, generate `n_paths` sequences of `n_days` draws
from a generator seeded deterministically with the seed, take terminal
wealth per path as `capital · Π(1+r_i)`, and aggregate probability of
profit, median and percentile terminal wealth. -/

/-- A 64-bit linear congruential PRNG step (the deterministic generator
behind the seeded draws). -/
def lcg (s : ℕ) : ℕ :=
  (6364136223846793005 * s + 1442695040888963407) % (2 ^ 64)

/-- The `k`-th state of the PRNG stream started from `seed`. -/
def lcgStream (seed : ℕ) (k : ℕ) : ℕ :=
  lcg^[k + 1] seed

/-- Mean of a rational list (0 on empty, the degenerate-input
sentinel). -/
def listMean (xs : List ℚ) : ℚ :=
  if xs.length = 0 then 0 else xs.sum / xs.length

/-- Population variance of a rational list about its mean. -/
def listVar (xs : List ℚ) : ℚ :=
  listMean (xs.map (fun x => (x - listMean xs) ^ 2))

/-- Modelled from the spec: one calibrated daily-return draw.  The
inverse-CDF transform of the normal(μ,σ) draw is abstracted into a
rational map of the PRNG state onto a symmetric interval scaled by the
calibrated dispersion. -/
def normalDraw (mu disp : ℚ) (state : ℕ) : ℚ :=
  mu + disp * (((state % 2001 : ℕ) : ℚ) - 1000) / 1000

/-- The simulated wealth path for path index `i`: day `j` consumes the
PRNG stream entry `i * n_days + j`, and wealth compounds
multiplicatively from `capital`. -/
def mcPath (mu disp : ℚ) (capital : ℚ) (seed n_days i : ℕ) : List ℚ :=
  ((List.range n_days).scanl
    (fun w j => w * (1 + normalDraw mu disp (lcgStream seed (i * n_days + j))))
    capital).drop 1

/-- Terminal wealth of a path (its last entry; `capital` for an empty
path of a zero-day horizon). -/
def terminalWealth (capital : ℚ) (path : List ℚ) : ℚ :=
  path.getLastD capital

/-- The sorted order used for percentile statistics. -/
def sortQ (xs : List ℚ) : List ℚ :=
  xs.insertionSort (fun a b => a ≤ b)

/-- `q`-th percentile of a list: entry `⌊q·(n-1)⌋` of the sorted list
(0 on an empty list, the degenerate-input sentinel). -/
def percentile (q : ℚ) (xs : List ℚ) : ℚ :=
  (sortQ xs).getD (Int.toNat ⌊q * (xs.length - 1)⌋) 0

/-- MonteCarloResult: the path ensemble (when `store_paths`), the
probability of profit, the median terminal wealth and the
5th/25th/75th/95th terminal-wealth percentiles. -/
structure MonteCarloResult where
  equity_paths : List (List ℚ)
  prob_profit : ℚ
  median_terminal_wealth : ℚ
  percentiles : List ℚ
  deriving Repr, DecidableEq

/-- Modelled from the spec, §4.5 (`src/monte_carlo/simulation.py` holds
no code): calibrate from the realized series, simulate the seeded
ensemble, and aggregate the summary statistics. -/
def run_monte_carlo (daily_returns : List ℚ) (n_paths n_days : ℕ)
    (capital : ℚ) (seed : ℕ) (store_paths : Bool) : MonteCarloResult :=
  let mu := listMean daily_returns
  let disp := listVar daily_returns
  let paths := (List.range n_paths).map (mcPath mu disp capital seed n_days)
  let finals := paths.map (terminalWealth capital)
  { equity_paths := if store_paths then paths else []
    prob_profit :=
      if n_paths = 0 then 0
      else ((finals.filter (fun w => capital < w)).length : ℚ) / n_paths
    median_terminal_wealth := percentile (1/2) finals
    percentiles := [5/100, 25/100, 75/100, 95/100].map (fun q => percentile q finals) }

/-! ## tests/conftest.py — synthetic fixtures

The fixtures are real code of the repository.  `np.exp`/`np.log` and
the seeded normal draws of `np.random` are transcendental and are
abstracted as explicit function parameters (`e`, `lg`, `draws`); the
arithmetic structure around them is embedded exactly. -/

/-- Running cumulative sums (`np.cumsum`): entry `j` is the sum of the
first `j+1` inputs, starting from accumulator `acc`. -/
def cumsumFrom (acc : ℚ) : List ℚ → List ℚ
  | [] => []
  | x :: xs => (acc + x) :: cumsumFrom (acc + x) xs

/-- `np.cumsum` from zero. -/
def cumsum (xs : List ℚ) : List ℚ := cumsumFrom 0 xs

/-- One fixture asset's price series:
`prices = 100.0 * np.exp(np.cumsum(daily_returns))`, with `np.exp`
abstracted as `e`. -/
def gbmPrices (e : ℚ → ℚ) (draws : List ℚ) : List ℚ :=
  (cumsum draws).map (fun s => 100 * e s)

/-- The `sample_prices` fixture (tests/conftest.py lines 8–20): three
tickers AAA/BBB/CCC, each with 252 daily draws — `draws i j` is the
`j`-th normal draw for ticker index `i` under the fixed seed 42 — and
prices `100·exp(cumsum(draws))`. -/
def sample_prices (e : ℚ → ℚ) (draws : ℕ → ℕ → ℚ) :
    List (String × List ℚ) :=
  [("AAA", gbmPrices e ((List.range 252).map (draws 0))),
   ("BBB", gbmPrices e ((List.range 252).map (draws 1))),
   ("CCC", gbmPrices e ((List.range 252).map (draws 2)))]

/-- Row-wise ratio-log of consecutive price rows:
`np.log(prices / prices.shift(1))` after dropping the first all-NaN
row, with `np.log` abstracted as `lg`. -/
def logReturnsAux (lg : ℚ → ℚ) : List ℚ → List (List ℚ) → List (List ℚ)
  | _, [] => []
  | prev, cur :: rest =>
      (List.zipWith (fun a b => lg (b / a)) prev cur) :: logReturnsAux lg cur rest

/-- The `sample_log_returns` fixture (tests/conftest.py lines 23–26)
and the contract of `src/data/returns.py` (which holds only its module
docstring): `np.log(prices / prices.shift(1)).dropna()` — the shift
makes row 0 all-NaN, so `dropna` leaves one row per consecutive pair of
price rows. -/
def sample_log_returns (lg : ℚ → ℚ) (prices : List (List ℚ)) :
    List (List ℚ) :=
  match prices with
  | [] => []
  | p0 :: rest => logReturnsAux lg p0 rest

/-! ## main.py — pipeline orchestration

`main` runs the three strategy variants and the report strictly in
sequence with no exception handling around any variant
(src/main.py lines 61–80 and 158–160); a raised exception in one
variant therefore propagates out of `main`.  The fallible run of one
variant is abstracted as an `Except` value. -/

/-- The three strategy variants main.py backtests. -/
def VARIANTS : List String := ["Equal Weight", "Half-Kelly", "Full Kelly"]

/-- The pipeline's visible output: the per-variant results dictionary
and the report, one section per variant. -/
structure PipelineOutput where
  results : List (String × BacktestResult)
  reportSections : List String
  deriving Repr, DecidableEq

/-- `main`'s backtest-and-report sequence: each variant's
`run_backtest` call in order, with no per-variant exception handling,
then the report over the collected results. -/
def runPipeline (runVariant : String → Except String BacktestResult) :
    Except String PipelineOutput :=
  match runVariant "Equal Weight" with
  | .error e => .error e
  | .ok ew =>
    match runVariant "Half-Kelly" with
    | .error e => .error e
    | .ok hk =>
      match runVariant "Full Kelly" with
      | .error e => .error e
      | .ok fk =>
          let results := [("Equal Weight", ew), ("Half-Kelly", hk), ("Full Kelly", fk)]
          .ok { results := results, reportSections := results.map Prod.fst }

/-- A concrete backtest result for the pipeline counterexample. -/
def trivialResult : BacktestResult := ⟨[INITIAL_CAPITAL], [], [], []⟩

/-- A run function whose Half-Kelly backtest raises while the other two
variants succeed. -/
def failHalfKelly : String → Except String BacktestResult :=
  fun v => if v = "Half-Kelly" then .error "boom" else .ok trivialResult

/-! ## Claim theorems -/

/-- C3: For every backtest run, the first entry of the returned equity
curve equals INITIAL_CAPITAL exactly. -/
theorem equity_curve_starts_at_initial_capital
    (prices : List (List ℚ)) (sig : Sig) (rebal : ℕ → Bool) :
    (run_backtest prices sig rebal).equity_curve.head? = some INITIAL_CAPITAL := by
  cases prices <;> rfl

/-- Helper: the signal at day `t` only reads the first `t` price
rows. -/
theorem signalAt_congr (sig : Sig) (p1 p2 : List (List ℚ)) (t T : ℕ)
    (ht : t ≤ T) (hp : p1.take T = p2.take T) :
    signalAt sig p1 t = signalAt sig p2 t := by
  unfold signalAt
  have h1 : p1.take t = (p1.take T).take t := by
    rw [List.take_take, min_eq_left ht]
  have h2 : p2.take t = (p2.take T).take t := by
    rw [List.take_take, min_eq_left ht]
  rw [h1, h2, hp]

/-- Helper: two runs of the daily loop over price matrices agreeing on
their first `T` rows produce identical records for all processed days
before `T`. -/
theorem runDays_take (sig : Sig) (rebal : ℕ → Bool) (T : ℕ)
    (p1 p2 : List (List ℚ)) (hp : p1.take T = p2.take T) :
    ∀ (n t : ℕ) (rest1 rest2 : List (List ℚ)) (st : PState) (prevEq : ℚ),
      t + n ≤ T → rest1.take n = rest2.take n →
      (runDays sig p1 rebal t rest1 st prevEq).equity_curve.take n =
          (runDays sig p2 rebal t rest2 st prevEq).equity_curve.take n ∧
      (runDays sig p1 rebal t rest1 st prevEq).daily_returns.take n =
          (runDays sig p2 rebal t rest2 st prevEq).daily_returns.take n ∧
      (runDays sig p1 rebal t rest1 st prevEq).positions.take n =
          (runDays sig p2 rebal t rest2 st prevEq).positions.take n ∧
      (runDays sig p1 rebal t rest1 st prevEq).turnover.take n =
          (runDays sig p2 rebal t rest2 st prevEq).turnover.take n := by
  intro n
  induction n with
  | zero =>
      intro t rest1 rest2 st prevEq _ _
      simp
  | succ n ih =>
      intro t rest1 rest2 st prevEq hT htake
      cases rest1 with
      | nil =>
          cases rest2 with
          | nil => exact ⟨rfl, rfl, rfl, rfl⟩
          | cons r2 rest2' => simp [List.take_succ_cons] at htake
      | cons r1 rest1' =>
          cases rest2 with
          | nil => simp [List.take_succ_cons] at htake
          | cons r2 rest2' =>
              rw [List.take_succ_cons, List.take_succ_cons] at htake
              injection htake with hr hrest
              subst hr
              have hsig := signalAt_congr sig p1 p2 t T (by omega) hp
              have hrec := ih (t + 1) rest1' rest2'
                (dayStep st r1 (rebal t) (signalAt sig p2 t)).1
                (dayStep st r1 (rebal t) (signalAt sig p2 t)).2.1
                (by omega) hrest
              simp only [runDays, hsig, List.take_succ_cons]
              exact ⟨by rw [hrec.1], by rw [hrec.2.1], by rw [hrec.2.2.1],
                by rw [hrec.2.2.2]⟩

/-- C4: No-lookahead, as a two-run noninterference statement — when two
price matrices agree strictly before day `t` (in particular when one is
the other modified or truncated at or after `t`), the weight vector the
engine requests from the SignalGenerator at `t` is unchanged, and so is
every engine record of the days before `t`. -/
theorem signal_no_lookahead (sig : Sig) (rebal : ℕ → Bool)
    (p1 p2 : List (List ℚ)) (t : ℕ) (h : p1.take t = p2.take t) :
    signalAt sig p1 t = signalAt sig p2 t ∧
    (run_backtest p1 sig rebal).equity_curve.take t =
      (run_backtest p2 sig rebal).equity_curve.take t ∧
    (run_backtest p1 sig rebal).positions.take t =
      (run_backtest p2 sig rebal).positions.take t := by
  refine ⟨signalAt_congr sig p1 p2 t t le_rfl h, ?_⟩
  cases t with
  | zero => simp
  | succ u =>
      cases p1 with
      | nil =>
          cases p2 with
          | nil => exact ⟨rfl, rfl⟩
          | cons r2 rest2 => simp [List.take_succ_cons] at h
      | cons r1 rest1 =>
          cases p2 with
          | nil => simp [List.take_succ_cons] at h
          | cons r2 rest2 =>
              rw [List.take_succ_cons, List.take_succ_cons] at h
              injection h with hr hrest
              subst hr
              have hp : (r1 :: rest1).take (u + 1) = (r1 :: rest2).take (u + 1) := by
                rw [List.take_succ_cons, List.take_succ_cons, hrest]
              have hrec := runDays_take sig rebal (u + 1) (r1 :: rest1)
                (r1 :: rest2) hp u 1 rest1 rest2
                ⟨INITIAL_CAPITAL, r1.map (fun _ => 0)⟩ INITIAL_CAPITAL
                (by omega) hrest
              constructor
              · simp only [run_backtest, List.take_succ_cons]
                rw [hrec.1]
              · simp only [run_backtest, List.take_succ_cons]
                rw [hrec.2.2.1]

/-- Witness for C4: modifying the day-1 prices changes neither the
signal at day 1 nor the day-0 records. -/
theorem signal_no_lookahead_witness :
    signalAt equal_weight_signal [[(1 : ℚ), 1], [2, 2]] 1 =
      signalAt equal_weight_signal [[(1 : ℚ), 1], [3, 9]] 1 ∧
    (run_backtest [[(1 : ℚ), 1], [2, 2]] equal_weight_signal
        (fun _ => true)).equity_curve.take 1 =
      (run_backtest [[(1 : ℚ), 1], [3, 9]] equal_weight_signal
        (fun _ => true)).equity_curve.take 1 ∧
    (run_backtest [[(1 : ℚ), 1], [2, 2]] equal_weight_signal
        (fun _ => true)).positions.take 1 =
      (run_backtest [[(1 : ℚ), 1], [3, 9]] equal_weight_signal
        (fun _ => true)).positions.take 1 :=
  signal_no_lookahead equal_weight_signal (fun _ => true)
    [[(1 : ℚ), 1], [2, 2]] [[(1 : ℚ), 1], [3, 9]] 1 rfl

/-- C5: Monte Carlo determinism — identical inputs and identical seed
produce the identical path ensemble and identical summary statistics
(probability of profit, median and percentile terminal wealth). -/
theorem monte_carlo_deterministic (dr : List ℚ) (np nd : ℕ) (cap : ℚ)
    (s1 s2 : ℕ) (sp : Bool) (h : s1 = s2) :
    (run_monte_carlo dr np nd cap s1 sp).equity_paths =
        (run_monte_carlo dr np nd cap s2 sp).equity_paths ∧
    (run_monte_carlo dr np nd cap s1 sp).prob_profit =
        (run_monte_carlo dr np nd cap s2 sp).prob_profit ∧
    (run_monte_carlo dr np nd cap s1 sp).median_terminal_wealth =
        (run_monte_carlo dr np nd cap s2 sp).median_terminal_wealth ∧
    (run_monte_carlo dr np nd cap s1 sp).percentiles =
        (run_monte_carlo dr np nd cap s2 sp).percentiles := by
  subst h
  exact ⟨rfl, rfl, rfl, rfl⟩

/-- Witness for C5: two runs with the configured seed 42 on a concrete
series agree on ensemble and statistics. -/
theorem monte_carlo_deterministic_witness :
    (run_monte_carlo [1/100, -1/200] 2 3 1000 MC_SEED true).equity_paths =
        (run_monte_carlo [1/100, -1/200] 2 3 1000 MC_SEED true).equity_paths ∧
    (run_monte_carlo [1/100, -1/200] 2 3 1000 MC_SEED true).prob_profit =
        (run_monte_carlo [1/100, -1/200] 2 3 1000 MC_SEED true).prob_profit ∧
    (run_monte_carlo [1/100, -1/200] 2 3 1000 MC_SEED true).median_terminal_wealth =
        (run_monte_carlo [1/100, -1/200] 2 3 1000 MC_SEED true).median_terminal_wealth ∧
    (run_monte_carlo [1/100, -1/200] 2 3 1000 MC_SEED true).percentiles =
        (run_monte_carlo [1/100, -1/200] 2 3 1000 MC_SEED true).percentiles :=
  monte_carlo_deterministic [1/100, -1/200] 2 3 1000 MC_SEED MC_SEED true rfl

/-- C1 counterexample: with the Half-Kelly variant failing and the
other two succeeding, `main`'s unguarded sequence produces no
surviving results and no report at all — the error is not confined. -/
theorem pipeline_isolation_counterexample :
    (failHalfKelly "Equal Weight").isOk = true ∧
    (failHalfKelly "Full Kelly").isOk = true ∧
    runPipeline failHalfKelly = .error "boom" :=
  ⟨rfl, rfl, rfl⟩

/-- C1 (amended): `main` wraps no variant's `run_backtest` in a
handler, so a failure of any variant aborts the whole pipeline: no
remaining variant results and no report are produced. -/
theorem pipeline_error_propagation (run : String → Except String BacktestResult)
    (h : ∃ v ∈ VARIANTS, (run v).isOk = false) :
    (runPipeline run).isOk = false := by
  obtain ⟨v, hv, hfail⟩ := h
  simp only [VARIANTS, List.mem_cons, List.not_mem_nil, or_false] at hv
  rcases h1 : run "Equal Weight" with e1 | r1 <;>
    rcases h2 : run "Half-Kelly" with e2 | r2 <;>
      rcases h3 : run "Full Kelly" with e3 | r3 <;>
        simp only [runPipeline, h1, h2, h3] <;>
          rcases hv with rfl | rfl | rfl <;>
            simp_all [Except.isOk, Except.toBool]

/-- Witness for C1 (amended): the concrete Half-Kelly failure aborts
the pipeline. -/
theorem pipeline_error_propagation_witness :
    (runPipeline failHalfKelly).isOk = false :=
  pipeline_error_propagation failHalfKelly
    ⟨"Half-Kelly", by simp [VARIANTS], rfl⟩

/-- C10: on the non-cache path, `fetch_single` raises (ValueError) if
and only if the downloaded data is empty, and on success it returns the
close series with no missing value, named by the ticker and indexed by
the date index named `"Date"`. -/
theorem fetch_single_spec (ticker : String) (downloaded : List (Option ℚ)) :
    (fetch_single ticker downloaded).isOk = !downloaded.isEmpty ∧
    ∀ s, fetch_single ticker downloaded = .ok s →
      s.name = ticker ∧ s.indexName = "Date" ∧ s.values.all Option.isSome = true := by
  constructor
  · cases downloaded <;> rfl
  · intro s hs
    cases downloaded with
    | nil => simp [fetch_single] at hs
    | cons x xs =>
        simp only [fetch_single, List.isEmpty_cons, if_neg] at hs
        rw [if_neg (by simp)] at hs
        cases hs
        refine ⟨rfl, rfl, ?_⟩
        simp [dropna, List.all_map, Option.isSome]

/-- Witness for C10: a concrete download with one gap yields the
named, gap-free series. -/
theorem fetch_single_spec_witness :
    ({ name := "SPY", indexName := "Date",
       values := [some (1 : ℚ), some 2] } : FetchedSeries).name = "SPY" ∧
    ({ name := "SPY", indexName := "Date",
       values := [some (1 : ℚ), some 2] } : FetchedSeries).indexName = "Date" ∧
    ({ name := "SPY", indexName := "Date",
       values := [some (1 : ℚ), some 2] } : FetchedSeries).values.all
        Option.isSome = true :=
  (fetch_single_spec "SPY" [some 1, none, some 2]).2
    { name := "SPY", indexName := "Date", values := [some (1 : ℚ), some 2] } rfl

/-- Helper: the first components of the successfully fetched pairs are
exactly the tickers with a successful outcome, in request order. -/
theorem fetched_fst_eq_filter (tickers : List String)
    (outcome : String → Option (List (Option ℚ))) :
    (tickers.filterMap (fun t => (outcome t).map (fun col => (t, col)))).map
        Prod.fst =
      tickers.filter (fun t => (outcome t).isSome) := by
  induction tickers with
  | nil => rfl
  | cons t ts ih =>
      cases h : outcome t <;>
        simp [List.filterMap_cons, h, List.filter_cons, ih]

/-- Helper: the fetched-pairs list is empty iff no ticker succeeded. -/
theorem fetched_empty_iff (tickers : List String)
    (outcome : String → Option (List (Option ℚ))) :
    (tickers.filterMap
        (fun t => (outcome t).map (fun col => (t, col)))).isEmpty = true ↔
      ∀ t ∈ tickers, outcome t = none := by
  rw [List.isEmpty_iff, List.filterMap_eq_nil_iff]
  constructor
  · intro h t ht
    exact Option.map_eq_none'.mp (h t ht)
  · intro h t ht
    rw [h t ht]
    rfl

/-- C2 counterexample: a ticker whose non-empty download has an
all-NaN close column is fetched "successfully" as an empty series (the
`ValueError` check precedes `dropna`), yet the run raises: the cleaned
table is empty and the summary logging's `prices.index[0]` raises
`IndexError` — so the run can abort with a nonzero number of
successfully fetched tickers. -/
theorem fetch_prices_abort_counterexample :
    ((fun t : String => if t = "A" then some ([] : List (Option ℚ)) else none)
        "A").isSome = true ∧
    fetch_prices ["A"]
        (fun t => if t = "A" then some ([] : List (Option ℚ)) else none) =
      .error "IndexError: index 0 is out of bounds for axis 0 with size 0" :=
  ⟨rfl, rfl⟩

/-- C2 (amended): `fetch_prices` excludes each ticker whose individual
fetch failed and continues over the remaining tickers; it raises
`RuntimeError` when zero tickers were fetched successfully, and
additionally raises `IndexError` when the cleaned table retains no
rows; it succeeds exactly when at least one ticker was fetched and the
cleaned table is nonempty, returning the table over exactly the
successfully fetched tickers. -/
theorem fetch_prices_failure_policy (tickers : List String)
    (outcome : String → Option (List (Option ℚ))) :
    ((fetch_prices tickers outcome).isOk = true ↔
      ((∃ t ∈ tickers, (outcome t).isSome = true) ∧
        cleanedRows (tickers.filterMap
          (fun t => (outcome t).map (fun col => (t, col)))) ≠ [])) ∧
    ∀ p, fetch_prices tickers outcome = .ok p →
      p.columns = tickers.filter (fun t => (outcome t).isSome) := by
  constructor
  · simp only [fetch_prices]
    split
    next hempty =>
      have h := (fetched_empty_iff tickers outcome).mp hempty
      refine iff_of_false (by simp [Except.isOk, Except.toBool]) ?_
      rintro ⟨⟨t, ht, hsome⟩, _⟩
      rw [h t ht] at hsome
      cases hsome
    next hne =>
      split
      next hrows =>
        refine iff_of_false (by simp [Except.isOk, Except.toBool]) ?_
        rintro ⟨_, hnil⟩
        exact hnil (List.isEmpty_iff.mp hrows)
      next hrows =>
        refine iff_of_true rfl ⟨?_, ?_⟩
        · by_contra hnone
          push_neg at hnone
          refine hne ((fetched_empty_iff tickers outcome).mpr ?_)
          intro t ht
          have := hnone t ht
          cases hout : outcome t with
          | none => rfl
          | some col => rw [hout] at this; cases this rfl
        · exact fun hnil => hrows (List.isEmpty_iff.mpr hnil)
  · intro p hp
    simp only [fetch_prices] at hp
    split at hp
    next => cases hp
    next =>
      split at hp
      next => cases hp
      next =>
        cases hp
        exact fetched_fst_eq_filter tickers outcome

/-- Witness for C2 (amended): with the first ticker failing and the
second succeeding on a gap-free column, the run completes over the
surviving ticker only. -/
theorem fetch_prices_failure_policy_witness :
    ({ columns := ["QQQ"], rows := [[some (1 : ℚ)]] } : PriceTable).columns =
      ["SPY", "QQQ"].filter
        (fun t =>
          ((fun t => if t = "QQQ" then some [some (1 : ℚ)] else none) t).isSome) :=
  (fetch_prices_failure_policy ["SPY", "QQQ"]
      (fun t => if t = "QQQ" then some [some 1] else none)).2
    { columns := ["QQQ"], rows := [[some (1 : ℚ)]] } rfl

/-- C7: the price table returned by a successful `fetch_prices` run has
one column per successfully fetched ticker and, after forward-filling
gaps up to 5 rows and dropping the rows still containing a missing
value, no row of the table holds a missing value. -/
theorem fetch_prices_table_complete (tickers : List String)
    (outcome : String → Option (List (Option ℚ))) :
    ∀ p, fetch_prices tickers outcome = .ok p →
      p.columns = tickers.filter (fun t => (outcome t).isSome) ∧
      ∀ row ∈ p.rows, row.all Option.isSome = true := by
  intro p hp
  simp only [fetch_prices] at hp
  split at hp
  next => cases hp
  next =>
    split at hp
    next => cases hp
    next =>
      cases hp
      refine ⟨fetched_fst_eq_filter tickers outcome, ?_⟩
      intro row hrow
      simp only [cleanedRows, dropnaRows] at hrow
      exact (List.mem_filter.mp hrow).2

/-- Witness for C7: a concrete run over two one-row tickers returns
the complete table over both. -/
theorem fetch_prices_table_complete_witness :
    ({ columns := ["A", "B"], rows := [[some (1 : ℚ), some 2]] } :
        PriceTable).columns =
      ["A", "B"].filter
        (fun t =>
          ((fun t => if t = "A" then some [some (1 : ℚ)] else some [some 2])
              t).isSome) ∧
    ∀ row ∈ ({ columns := ["A", "B"], rows := [[some (1 : ℚ), some 2]] } :
        PriceTable).rows,
      row.all Option.isSome = true :=
  fetch_prices_table_complete ["A", "B"]
    (fun t => if t = "A" then some [some 1] else some [some 2])
    { columns := ["A", "B"], rows := [[some (1 : ℚ), some 2]] } rfl

/-- Helper: each clipped weight respects the single-position cap. -/
theorem abs_clipPos_le (w : ℚ) : |clipPos w| ≤ MAX_POSITION_WEIGHT := by
  have hm : (0 : ℚ) ≤ MAX_POSITION_WEIGHT := by norm_num [MAX_POSITION_WEIGHT]
  rw [clipPos, abs_le]
  exact ⟨le_max_left _ _, max_le (neg_le_self hm) (min_le_left _ _)⟩

/-- Helper: `maxAbs` is bounded by any nonnegative bound on the
absolute entries. -/
theorem maxAbs_le (ws : List ℚ) (b : ℚ) (hb : 0 ≤ b)
    (h : ∀ w ∈ ws, |w| ≤ b) : maxAbs ws ≤ b := by
  induction ws with
  | nil => exact hb
  | cons w ws ih =>
      simp only [maxAbs, List.map_cons, List.foldr_cons]
      exact max_le (h w (by simp))
        (ih (fun x hx => h x (List.mem_cons_of_mem w hx)))

/-- Helper: gross leverage is nonnegative. -/
theorem grossLev_nonneg (ws : List ℚ) : 0 ≤ grossLev ws := by
  rw [grossLev]
  apply List.sum_nonneg
  intro x hx
  obtain ⟨w, _, rfl⟩ := List.mem_map.mp hx
  exact abs_nonneg w

/-- Helper: gross leverage scales with a nonnegative factor. -/
theorem grossLev_map_mul (ws : List ℚ) (k : ℚ) (hk : 0 ≤ k) :
    grossLev (ws.map (fun w => w * k)) = grossLev ws * k := by
  induction ws with
  | nil => simp [grossLev]
  | cons w ws ih =>
      simp only [grossLev, List.map_cons, List.sum_cons] at *
      rw [abs_mul, abs_of_nonneg hk, ih]
      ring

/-- Helper: sum of a constant map. -/
theorem sum_map_const (l : List ℚ) (c : ℚ) :
    (l.map (fun _ => c)).sum = l.length * c := by
  induction l with
  | nil => simp
  | cons x xs ih =>
      simp only [List.map_cons, List.sum_cons, List.length_cons, ih]
      push_cast
      ring

/-- Helper: the constraint step keeps every position within
MAX_POSITION_WEIGHT. -/
theorem applyConstraints_pos_cap (ws : List ℚ) :
    maxAbs (applyConstraints ws) ≤ MAX_POSITION_WEIGHT := by
  have hm : (0 : ℚ) ≤ MAX_POSITION_WEIGHT := by norm_num [MAX_POSITION_WEIGHT]
  simp only [applyConstraints]
  split
  next =>
    apply maxAbs_le _ _ hm
    intro x hx
    obtain ⟨w, _, rfl⟩ := List.mem_map.mp hx
    exact abs_clipPos_le w
  next hg =>
    have hgpos : 0 < grossLev (ws.map clipPos) :=
      lt_trans (by norm_num [MAX_LEVERAGE]) (not_le.mp hg)
    apply maxAbs_le _ _ hm
    intro x hx
    obtain ⟨y, hy, rfl⟩ := List.mem_map.mp hx
    obtain ⟨w, _, rfl⟩ := List.mem_map.mp hy
    rw [abs_mul]
    have h1 : |MAX_LEVERAGE / grossLev (ws.map clipPos)| ≤ 1 := by
      rw [abs_of_nonneg (div_nonneg (by norm_num [MAX_LEVERAGE]) hgpos.le)]
      exact (div_le_one hgpos).mpr (not_le.mp hg).le
    calc |clipPos w| * |MAX_LEVERAGE / grossLev (ws.map clipPos)|
        ≤ MAX_POSITION_WEIGHT * 1 :=
          mul_le_mul (abs_clipPos_le w) h1 (abs_nonneg _) hm
      _ = MAX_POSITION_WEIGHT := mul_one _

/-- Helper: the constraint step keeps gross leverage within
MAX_LEVERAGE. -/
theorem applyConstraints_leverage (ws : List ℚ) :
    grossLev (applyConstraints ws) ≤ MAX_LEVERAGE := by
  simp only [applyConstraints]
  split
  next h => exact h
  next hg =>
    have hgpos : 0 < grossLev (ws.map clipPos) :=
      lt_trans (by norm_num [MAX_LEVERAGE]) (not_le.mp hg)
    rw [grossLev_map_mul _ _ (div_nonneg (by norm_num [MAX_LEVERAGE]) hgpos.le)]
    rw [mul_comm, div_mul_cancel₀ _ hgpos.ne']

/-- C6 counterexample: the equal-weight variant on a two-asset history
produces the weight vector `[1/2, 1/2]`, whose largest position 1/2
exceeds MAX_POSITION_WEIGHT = 0.40 — so not every generated
WeightVector of every variant respects the position cap. -/
theorem weight_caps_counterexample :
    equal_weight_signal [[(1 : ℚ), 1]] = [1/2, 1/2] ∧
    ¬ maxAbs (equal_weight_signal [[(1 : ℚ), 1]]) ≤ MAX_POSITION_WEIGHT := by
  constructor
  · norm_num [equal_weight_signal]
  · have h : maxAbs (equal_weight_signal [[(1 : ℚ), 1]]) = 1/2 := by
      simp only [equal_weight_signal, maxAbs, List.map_cons, List.map_nil,
        List.foldr_cons, List.foldr_nil, List.length_cons, List.length_nil]
      norm_num
    rw [h, MAX_POSITION_WEIGHT]
    norm_num

/-- Helper: the equal-weight vector's gross leverage is within
MAX_LEVERAGE on every history — it is 1 on a history with assets and 0
on an empty or asset-free one. -/
theorem equal_weight_grossLev_le (hist : List (List ℚ)) :
    grossLev (equal_weight_signal hist) ≤ MAX_LEVERAGE := by
  cases hist with
  | nil => norm_num [equal_weight_signal, grossLev, MAX_LEVERAGE]
  | cons row rest =>
      cases hn : row.length with
      | zero =>
          have hrow : row = [] := List.length_eq_zero.mp hn
          subst hrow
          norm_num [equal_weight_signal, grossLev, MAX_LEVERAGE]
      | succ m =>
          have hnpos : (0 : ℚ) < (row.length : ℚ) := by
            rw [hn]
            exact_mod_cast Nat.succ_pos m
          simp only [equal_weight_signal, grossLev, List.map_map]
          have hcomp : ((fun w => |w|) ∘ fun _ : ℚ => 1 / (row.length : ℚ)) =
              fun _ : ℚ => |1 / (row.length : ℚ)| := rfl
          rw [hcomp, sum_map_const,
            abs_of_nonneg (div_nonneg zero_le_one hnpos.le), mul_one_div,
            div_self hnpos.ne']
          norm_num [MAX_LEVERAGE]

/-- C6 (amended): every WeightVector produced by a Kelly variant — for
any raw estimator, fraction and history — satisfies
`max |w_i| ≤ MAX_POSITION_WEIGHT` and `Σ|w_i| ≤ MAX_LEVERAGE`; the
equal-weight vector `1/N` always satisfies the leverage cap, for every
history, and satisfies the position cap whenever the history has at
least 3 assets (`1/N ≤ MAX_POSITION_WEIGHT` needs `N ≥ 3` at the
configured cap of 0.40). -/
theorem weight_caps_amended (raw : Sig) (fraction : ℚ)
    (hist hist2 : List (List ℚ)) (row : List ℚ) (rest : List (List ℚ)) :
    maxAbs (make_kelly_signal fraction raw hist) ≤ MAX_POSITION_WEIGHT ∧
    grossLev (make_kelly_signal fraction raw hist) ≤ MAX_LEVERAGE ∧
    (3 ≤ row.length →
      maxAbs (equal_weight_signal (row :: rest)) ≤ MAX_POSITION_WEIGHT) ∧
    grossLev (equal_weight_signal hist2) ≤ MAX_LEVERAGE := by
  refine ⟨applyConstraints_pos_cap _, applyConstraints_leverage _, ?_,
    equal_weight_grossLev_le hist2⟩
  intro h3
  have hn : (3 : ℚ) ≤ (row.length : ℚ) := by exact_mod_cast h3
  have hnpos : (0 : ℚ) < (row.length : ℚ) := by linarith
  apply maxAbs_le _ _ (by norm_num [MAX_POSITION_WEIGHT])
  intro x hx
  simp only [equal_weight_signal] at hx
  obtain ⟨w, _, rfl⟩ := List.mem_map.mp hx
  rw [abs_of_nonneg (div_nonneg zero_le_one hnpos.le)]
  rw [div_le_iff₀ hnpos, MAX_POSITION_WEIGHT]
  linarith

/-- Witness for C6 (amended): a concrete Kelly signal on a three-asset
history satisfies both caps, the three-asset equal-weight vector
satisfies the position cap, and even the two-asset equal-weight vector
(which breaches the position cap) satisfies the leverage cap. -/
theorem weight_caps_amended_witness :
    maxAbs (make_kelly_signal (1/2) (fun _ => [10, -10, 10])
        [[(1 : ℚ), 1, 1]]) ≤ MAX_POSITION_WEIGHT ∧
    grossLev (make_kelly_signal (1/2) (fun _ => [10, -10, 10])
        [[(1 : ℚ), 1, 1]]) ≤ MAX_LEVERAGE ∧
    maxAbs (equal_weight_signal ([(1 : ℚ), 1, 1] :: [])) ≤ MAX_POSITION_WEIGHT ∧
    grossLev (equal_weight_signal [[(1 : ℚ), 1]]) ≤ MAX_LEVERAGE :=
  ⟨(weight_caps_amended (fun _ => [10, -10, 10]) (1/2) [[(1 : ℚ), 1, 1]]
      [[(1 : ℚ), 1]] [(1 : ℚ), 1, 1] []).1,
   (weight_caps_amended (fun _ => [10, -10, 10]) (1/2) [[(1 : ℚ), 1, 1]]
      [[(1 : ℚ), 1]] [(1 : ℚ), 1, 1] []).2.1,
   (weight_caps_amended (fun _ => [10, -10, 10]) (1/2) [[(1 : ℚ), 1, 1]]
      [[(1 : ℚ), 1]] [(1 : ℚ), 1, 1] []).2.2.1 (by decide),
   (weight_caps_amended (fun _ => [10, -10, 10]) (1/2) [[(1 : ℚ), 1, 1]]
      [[(1 : ℚ), 1]] [(1 : ℚ), 1, 1] []).2.2.2⟩

/-- Helper: cumulative sums preserve length. -/
theorem cumsumFrom_length (acc : ℚ) (xs : List ℚ) :
    (cumsumFrom acc xs).length = xs.length := by
  induction xs generalizing acc with
  | nil => rfl
  | cons x xs ih => simp [cumsumFrom, ih]

/-- Helper: the first cumulative sum is the first input (plus the zero
accumulator). -/
theorem cumsum_head? (xs : List ℚ) :
    (cumsum xs).head? = xs.head?.map (fun x => 0 + x) := by
  cases xs <;> rfl

/-- Helper: a fixture price series has one price per draw. -/
theorem gbmPrices_length (e : ℚ → ℚ) (draws : List ℚ) :
    (gbmPrices e draws).length = draws.length := by
  simp [gbmPrices, cumsum, cumsumFrom_length]

/-- Helper: the first fixture price is `100·e` of the first draw. -/
theorem gbmPrices_head? (e : ℚ → ℚ) (draws : List ℚ) :
    (gbmPrices e draws).head? = draws.head?.map (fun x => 100 * e (0 + x)) := by
  cases draws <;> rfl

/-- Helper: the first price of a 252-draw fixture series. -/
theorem gbm_first_price (e : ℚ → ℚ) (f : ℕ → ℚ) :
    (gbmPrices e ((List.range 252).map f)).head? = some (100 * e (0 + f 0)) := by
  rw [gbmPrices_head?, List.head?_map]
  have h : (List.range 252).head? = some 0 := by decide
  rw [h]
  rfl

/-- C8 counterexample: instantiating the abstracted `np.exp` with an
`e` normalized like it (`e 0 = 1`) and the seeded draws with a nonzero
first draw, every fixture series begins at `100·e(first draw) = 101`,
not at 100 — the code never emits the starting-price parameter itself,
and the seed-42 first normal draw is nonzero. -/
theorem sample_prices_counterexample :
    (fun s => (1 : ℚ) + s) 0 = 1 ∧
    (sample_prices (fun s => (1 : ℚ) + s) (fun _ _ => 1/100)).map
        (fun p => p.2.head?) =
      [some (101 : ℚ), some 101, some 101] ∧
    (101 : ℚ) ≠ 100 := by
  refine ⟨by norm_num, ?_, by norm_num⟩
  simp only [sample_prices, List.map_cons, List.map_nil]
  rw [gbm_first_price]
  norm_num

/-- C8 (amended): the fixture generates 3 assets of 252 business-day
prices `100·exp(cumsum(draws))`, so each series begins at
`100·exp(first draw)` — equal to 100 only when the first seeded draw is
zero, not in general. -/
theorem sample_prices_amended (e : ℚ → ℚ) (draws : ℕ → ℕ → ℚ) :
    (sample_prices e draws).length = 3 ∧
    (∀ p ∈ sample_prices e draws, p.2.length = 252) ∧
    (sample_prices e draws).map (fun p => p.2.head?) =
      [some (100 * e (0 + draws 0 0)), some (100 * e (0 + draws 1 0)),
       some (100 * e (0 + draws 2 0))] := by
  refine ⟨rfl, ?_, ?_⟩
  · intro p hp
    simp only [sample_prices, List.mem_cons, List.not_mem_nil, or_false] at hp
    rcases hp with rfl | rfl | rfl <;>
      simp [gbmPrices_length]
  · simp only [sample_prices, List.map_cons, List.map_nil]
    rw [gbm_first_price, gbm_first_price, gbm_first_price]

/-- Witness for C8 (amended): the first fixture series at a concrete
`e` and draw function has 252 entries. -/
theorem sample_prices_amended_witness :
    (("AAA", gbmPrices (fun s => (1 : ℚ) + s)
        ((List.range 252).map (fun _ => (0 : ℚ)))) : String × List ℚ).2.length
      = 252 :=
  (sample_prices_amended (fun s => (1 : ℚ) + s) (fun _ _ => 0)).2.1
    ("AAA", gbmPrices (fun s => (1 : ℚ) + s) ((List.range 252).map (fun _ => (0 : ℚ))))
    (List.mem_cons_self _ _)

/-- Helper: the consecutive-pair log-return rows have one row per tail
row of the price matrix. -/
theorem logReturnsAux_length (lg : ℚ → ℚ) (prev : List ℚ)
    (rest : List (List ℚ)) :
    (logReturnsAux lg prev rest).length = rest.length := by
  induction rest generalizing prev with
  | nil => rfl
  | cons cur rest ih => simp [logReturnsAux, ih]

/-- Helper: entry `t` of the log-return rows pairs rows `t` and `t+1`
of the price matrix. -/
theorem logReturnsAux_getElem (lg : ℚ → ℚ) (prev : List ℚ)
    (rest : List (List ℚ)) (t : ℕ) (ht : t < rest.length) :
    (logReturnsAux lg prev rest)[t]? =
      some (List.zipWith (fun a b => lg (b / a)) ((prev :: rest).getD t [])
        (rest.getD t [])) := by
  induction rest generalizing prev t with
  | nil => cases ht
  | cons cur rest ih =>
      cases t with
      | zero =>
          rw [logReturnsAux, List.getElem?_cons_zero, List.getD_cons_zero,
            List.getD_cons_zero]
      | succ t =>
          rw [logReturnsAux, List.getElem?_cons_succ, List.getD_cons_succ,
            List.getD_cons_succ]
          exact ih cur t (by simpa using ht)

/-- C9: for every price matrix with positive entries and no missing
values, the derived log-return series is `lg(P_{t+1}/P_t)` row-wise and
is exactly one row shorter than the price matrix. -/
theorem log_returns_spec (lg : ℚ → ℚ) (prices : List (List ℚ))
    (hpos : ∀ row ∈ prices, ∀ x ∈ row, 0 < x) :
    (sample_log_returns lg prices).length = prices.length - 1 ∧
    ∀ t, t + 1 < prices.length →
      (sample_log_returns lg prices)[t]? =
        some (List.zipWith (fun a b => lg (b / a)) (prices.getD t [])
          (prices.getD (t + 1) [])) := by
  cases prices with
  | nil =>
      exact ⟨rfl, fun t ht => absurd ht (by simp)⟩
  | cons p0 rest =>
      constructor
      · simp [sample_log_returns, logReturnsAux_length]
      · intro t ht
        have ht' : t < rest.length := by
          simpa using ht
        rw [sample_log_returns, logReturnsAux_getElem lg p0 rest t ht',
          List.getD_cons_succ]

/-- Witness for C9: on a concrete positive 3-row price matrix the
log-return series has 2 rows and its first row pairs rows 0 and 1. -/
theorem log_returns_spec_witness :
    (sample_log_returns (fun x => x) [[(1 : ℚ)], [2], [4]]).length =
        ([[(1 : ℚ)], [2], [4]] : List (List ℚ)).length - 1 ∧
    (sample_log_returns (fun x => x) [[(1 : ℚ)], [2], [4]])[0]? =
      some (List.zipWith (fun a b => (fun x => x) (b / a))
        (([[(1 : ℚ)], [2], [4]] : List (List ℚ)).getD 0 [])
        (([[(1 : ℚ)], [2], [4]] : List (List ℚ)).getD (0 + 1) [])) :=
  ⟨(log_returns_spec (fun x => x) [[(1 : ℚ)], [2], [4]] (by decide)).1,
   (log_returns_spec (fun x => x) [[(1 : ℚ)], [2], [4]] (by decide)).2 0
     (by norm_num)⟩

end QuantBacktest
